import Mathlib

/-!
Verification of SyncLocalStorage (src/SyncLocalStorage.js), a namespaced,
serializing wrapper around a browser-style synchronous key-value backend.

The backend (window.localStorage in the browser) is modelled as an ordered
association list of physical key / value pairs, exposing the standard
localStorage API: `length`, `key(i)`, `getItem`, `setItem`, `removeItem`.
-/

/-- The backend store: an ordered, index-addressable list of
(physical key, stored string value) pairs. -/
abbrev Backend := List (String × String)

/-- Backend `length`: the number of entries across all namespaces. -/
def Backend.size (B : Backend) : Nat := B.length

/-- Backend `key(i)`: the physical key at index `i`, or null past the end. -/
def Backend.key (B : Backend) (i : Nat) : Option String :=
  B[i]?.map Prod.fst

/-- Backend `getItem(k)`: the stored value at physical key `k`, or null. -/
def Backend.getItem (B : Backend) (k : String) : Option String :=
  (B.find? (fun p => p.1 == k)).map Prod.snd

/-- Backend `setItem(k, v)`: overwrite in place when `k` is present,
otherwise append at the end. -/
def Backend.setItem (B : Backend) (k v : String) : Backend :=
  if B.any (fun p => p.1 == k) then
    B.map (fun p => if p.1 == k then (k, v) else p)
  else B ++ [(k, v)]

/-- Backend `removeItem(k)`: delete every entry stored at physical key `k`. -/
def Backend.removeItem (B : Backend) (k : String) : Backend :=
  B.filter (fun p => p.1 != k)

/-- JavaScript `k.substr(0, n)`: the first `n` characters of `k`
(the whole string when it is shorter). -/
def substrTo (k : String) (n : Nat) : String := String.mk (k.toList.take n)

/-- JavaScript `k.substr(k.indexOf(".") + 1)`: the part of `k` after the
first dot character; when `k` has no dot, `indexOf` yields -1 and the JS
expression returns `k` itself. -/
def afterFirstDot (k : String) : String :=
  match k.toList.dropWhile (fun c => c != '.') with
  | [] => k
  | _ :: rest => String.mk rest

/-- The namespace test performed by `key` and `findKeys` in the source:
`(k.length > ns.length) && (k.substr(0, ns.length + 1) == ns + ".")`. -/
def nsMatches (ns k : String) : Bool :=
  decide (ns.length < k.length) && (substrTo k (ns.length + 1) == ns ++ ".")

/-- JavaScript `String.prototype.split(".")` over a character list:
`""` splits to `[""]`, separators at the ends produce empty segments. -/
def consHead (c : Char) : List (List Char) → List (List Char)
  | [] => [[c]]
  | s :: ss => (c :: s) :: ss

/-- Splits a character list at every dot, keeping empty segments. -/
def splitDots : List Char → List (List Char)
  | [] => [[]]
  | c :: cs => if c = '.' then [] :: splitDots cs else consHead c (splitDots cs)

/-- The dot-separated segments of a string. -/
def segsOf (s : String) : List String := (splitDots s.toList).map String.mk

/-- Modelled from the spec: the pattern compiler (`FindKeysReBuilder.js`,
bound as `buildRe` in the source) is not present under src/. Per the spec,
a pattern is a dot-segmented string whose segments are each either the
wildcard `*` or a nonempty literal; a malformed pattern (empty segment, or
a `*` embedded inside a literal segment) makes compilation signal failure
(the source's `buildRe` returns `false`, modelled here as `none`). -/
def patternSegValid (seg : String) : Bool :=
  seg != "" && (seg == "*" || !(seg.toList.contains '*'))

/-- Modelled from the spec: the matcher produced by a successful
compilation accepts a candidate key iff it has the same number of
dot-separated segments as the pattern and each candidate segment either
equals the corresponding literal pattern segment or that pattern segment
is `*`. -/
def reTest (ps : List String) (k : String) : Bool :=
  let ks := segsOf k
  decide (ks.length = ps.length) &&
    (ps.zip ks).all (fun pc => pc.1 == "*" || pc.1 == pc.2)

/-- Modelled from the spec: `buildRe` compiles a pattern to a matcher, or
signals failure on a malformed pattern. -/
def buildRe (pattern : String) : Option (String → Bool) :=
  if (segsOf pattern).all patternSegValid then some (reTest (segsOf pattern))
  else none

/-- The store: backend reference, namespace, serializer, unserializer
(the four constructor fields `_ls`, `_ns`, `_serialize`, `_unserialize`). -/
structure SyncLocalStorage (α : Type) where
  ls : Backend
  ns : String
  ser : α → String
  unser : Option String → α

/-- `getLength()` (aliased as `length` in the source): the number of items
in the whole backend, not the number within the namespace. -/
def SyncLocalStorage.getLength (st : SyncLocalStorage α) : Nat :=
  st.ls.size

/-- `setItem(k, v)`: writes the serialized value under `ns + "." + k`. -/
def SyncLocalStorage.setItem (st : SyncLocalStorage α) (k : String) (v : α) :
    SyncLocalStorage α :=
  { st with ls := st.ls.setItem (st.ns ++ "." ++ k) (st.ser v) }

/-- `getItem(k)`: unserializes the raw value read at `ns + "." + k`. -/
def SyncLocalStorage.getItem (st : SyncLocalStorage α) (k : String) : α :=
  st.unser (st.ls.getItem (st.ns ++ "." ++ k))

/-- `removeItem(k)`: deletes the entry at `ns + "." + k`. -/
def SyncLocalStorage.removeItem (st : SyncLocalStorage α) (k : String) :
    SyncLocalStorage α :=
  { st with ls := st.ls.removeItem (st.ns ++ "." ++ k) }

/-- `key(i)`: the backend key at index `i` stripped to a logical key when
it lies within the namespace, otherwise null. -/
def SyncLocalStorage.key (st : SyncLocalStorage α) (i : Nat) : Option String :=
  match st.ls.key i with
  | none => none
  | some k => if nsMatches st.ns k then some (afterFirstDot k) else none

/-- `keys()`: `key(i)` collected over every backend index `0..length-1`. -/
def SyncLocalStorage.keys (st : SyncLocalStorage α) : List (Option String) :=
  (List.range st.getLength).map (fun i => st.key i)

/-- `clear()`: snapshots all logical keys of the namespace, then removes
each one. -/
def SyncLocalStorage.clear (st : SyncLocalStorage α) : SyncLocalStorage α :=
  ((List.range st.getLength).filterMap (fun i => st.key i)).foldl
    (fun s k => s.removeItem k) st

/-- Result of `findKeys`: the JS code throws an Error whose message embeds
the offending pattern when compilation fails; otherwise it returns the
matching logical keys in backend order. -/
inductive FindKeysResult where
  | invalidPattern (pattern : String)
  | ok (keys : List String)
  deriving DecidableEq

/-- `findKeys(pattern)`: compiles the pattern first (failing before any
backend scan), then scans all backend indices, keeps the keys inside the
namespace, strips them, and collects those accepted by the matcher. -/
def SyncLocalStorage.findKeys (st : SyncLocalStorage α) (pattern : String) :
    FindKeysResult :=
  match buildRe pattern with
  | none => .invalidPattern pattern
  | some re =>
      .ok ((st.ls.map Prod.fst).filterMap (fun k =>
        if nsMatches st.ns k then
          if re (afterFirstDot k) then some (afterFirstDot k) else none
        else none))

/-- A concrete store over string values, used to instantiate theorems:
the identity serializer, and an unserializer mapping null to `""`. -/
def mkStore (B : Backend) (ns : String) : SyncLocalStorage String :=
  ⟨B, ns, fun v => v, fun o => o.getD ""⟩

/-- The spec's description of index-based key derivation
(`physicalKeyAt`): null when the raw key does not start with
`namespace + "."` or has length equal to the namespace's length; otherwise
the substring after the first dot character found in the key. -/
def specKeyAt (ns : String) : Option String → Option String
  | none => none
  | some k =>
      if (ns.toList ++ ['.']).isPrefixOf k.toList && !(k.length == ns.length)
      then some (afterFirstDot k) else none

/-- The namespace-stripped logical keys present in the backend, in backend
order. -/
def strippedNsKeys (st : SyncLocalStorage α) : List String :=
  (st.ls.map Prod.fst).filterMap
    (fun k => if nsMatches st.ns k then some (afterFirstDot k) else none)

/-! ### Backend lemmas -/

theorem Backend.find?_setItem_map (B : Backend) (k v : String)
    (h : B.any (fun p => p.1 == k) = true) :
    (B.map (fun p => if p.1 == k then (k, v) else p)).find?
      (fun p => p.1 == k) = some (k, v) := by
  induction B with
  | nil => simp at h
  | cons p B ih =>
      by_cases hp : (p.1 == k) = true
      · simp only [List.map_cons, if_pos hp]
        exact List.find?_cons_of_pos _ (by simp)
      · simp only [List.map_cons, if_neg hp]
        rw [List.find?_cons_of_neg _ (by simpa using hp)]
        apply ih
        simpa [hp] using h

theorem Backend.getItem_setItem_self (B : Backend) (k v : String) :
    (B.setItem k v).getItem k = some v := by
  unfold Backend.setItem Backend.getItem
  by_cases h : B.any (fun p => p.1 == k) = true
  · rw [if_pos h, Backend.find?_setItem_map B k v h]
    rfl
  · rw [if_neg h, List.find?_append]
    have hB : B.find? (fun p => p.1 == k) = none := by
      rw [List.find?_eq_none]
      intro x hx
      exact fun hc => h (List.any_eq_true.mpr ⟨x, hx, hc⟩)
    simp [hB]

theorem Backend.getItem_setItem_ne (B : Backend) (k k' v : String)
    (h : k ≠ k') : (B.setItem k v).getItem k' = B.getItem k' := by
  unfold Backend.setItem Backend.getItem
  by_cases hA : B.any (fun p => p.1 == k) = true
  · rw [if_pos hA, List.find?_map]
    have hpred : ((fun p : String × String => p.1 == k') ∘
          (fun p : String × String => if p.1 == k then (k, v) else p))
        = (fun p : String × String => p.1 == k') := by
      funext p
      simp only [Function.comp_apply]
      by_cases hp : (p.1 == k) = true
      · have hpk : p.1 = k := beq_iff_eq.mp hp
        rw [if_pos hp, hpk]
      · rw [if_neg hp]
    rw [hpred]
    cases hf : B.find? (fun p => p.1 == k') with
    | none => rfl
    | some x =>
        have hx : (x.1 == k') = true := by
          have := List.find?_some hf
          simpa using this
        have hxk : (x.1 == k) = false := by
          rw [beq_eq_false_iff_ne]
          rw [beq_iff_eq] at hx
          exact fun hc => h (hc ▸ hx)
        rw [beq_eq_false_iff_ne] at hxk
        simp [hxk]
  · rw [if_neg hA, List.find?_append]
    have h1 : List.find? (fun p : String × String => p.1 == k') [(k, v)]
        = none := by
      rw [List.find?_eq_none]
      intro x hx
      simp only [List.mem_singleton] at hx
      subst hx
      simp [h]
    simp [h1]

theorem Backend.getItem_removeItem_self (B : Backend) (k : String) :
    (B.removeItem k).getItem k = none := by
  unfold Backend.removeItem Backend.getItem
  have : (B.filter (fun p => p.1 != k)).find? (fun p => p.1 == k) = none := by
    rw [List.find?_eq_none]
    intro x hx
    have := (List.mem_filter.mp hx).2
    simp only [bne_iff_ne, ne_eq] at this
    simp [this]
  simp [this]

theorem String.append_dot_cancel (ns₁ ns₂ k : String)
    (h : ns₁ ++ "." ++ k = ns₂ ++ "." ++ k) : ns₁ = ns₂ := by
  have hd : (ns₁.data ++ ['.']) ++ k.data = (ns₂.data ++ ['.']) ++ k.data := by
    have := congrArg String.data h
    simpa [String.data_append] using this
  have hd₂ := List.append_cancel_right hd
  exact String.ext (List.append_cancel_right hd₂)

/-! ### Claim theorems: simple store operations -/

/-- C6: `getLength` (aliased `length`) counts the entries of the whole
backend across all namespaces; on a backend holding two foreign entries
and one entry of namespace `n` it reports 3, not 1 (the namespaced
count). -/
theorem getLength_counts_whole_backend :
    (∀ {α : Type} (st : SyncLocalStorage α), st.getLength = st.ls.length) ∧
    (mkStore [("other.a", "1"), ("other.b", "2"), ("n.c", "3")] "n").getLength
      = 3 ∧
    ((mkStore [("other.a", "1"), ("other.b", "2"), ("n.c", "3")] "n").keys.filterMap
      id).length = 1 := by
  refine ⟨fun st => rfl, rfl, by decide⟩

/-- C7: a `setItem` performed through a store with namespace `ns₁` is not
observable through `getItem` on a store with a different namespace `ns₂`
sharing the same backend. -/
theorem setItem_invisible_other_namespace {α : Type}
    (st₁ st₂ : SyncLocalStorage α) (k : String) (v : α)
    (hns : st₁.ns ≠ st₂.ns) (hshared : st₂.ls = st₁.ls) :
    SyncLocalStorage.getItem { st₂ with ls := (st₁.setItem k v).ls } k
      = st₂.getItem k := by
  unfold SyncLocalStorage.getItem SyncLocalStorage.setItem
  simp only
  rw [hshared]
  congr 1
  apply Backend.getItem_setItem_ne
  intro hc
  exact hns (String.append_dot_cancel _ _ _ hc)

/-- Witness for C7 at concrete stores with namespaces `a` and `b`. -/
theorem setItem_invisible_other_namespace_witness :
    ((mkStore [] "a").ns ≠ (mkStore [] "b").ns) ∧
    SyncLocalStorage.getItem
      { mkStore [] "b" with ls := ((mkStore [] "a").setItem "x" "1").ls } "x"
      = (mkStore [] "b").getItem "x" :=
  ⟨by decide,
   setItem_invisible_other_namespace (mkStore [] "a") (mkStore [] "b") "x" "1"
     (by decide) rfl⟩

/-- C8: when the serializer/unserializer pair round-trips a value exactly,
`setItem` followed by `getItem` at the same key returns that value. -/
theorem setItem_getItem_roundtrip {α : Type} (st : SyncLocalStorage α)
    (k : String) (v : α) (h : st.unser (some (st.ser v)) = v) :
    (st.setItem k v).getItem k = v := by
  unfold SyncLocalStorage.getItem SyncLocalStorage.setItem
  simp only
  rw [Backend.getItem_setItem_self]
  exact h

/-- Witness for C8 on a string store whose codec is the identity. -/
theorem setItem_getItem_roundtrip_witness :
    ((mkStore [] "n").unser (some ((mkStore [] "n").ser "v")) = "v") ∧
    (((mkStore [] "n").setItem "k" "v").getItem "k" = "v") :=
  ⟨rfl, setItem_getItem_roundtrip (mkStore [] "n") "k" "v" rfl⟩

/-- C9: `removeItem` followed by `getItem` at the same key returns exactly
the unserializer applied to the backend's missing-value sentinel. -/
theorem removeItem_getItem_missing {α : Type} (st : SyncLocalStorage α)
    (k : String) : (st.removeItem k).getItem k = st.unser none := by
  unfold SyncLocalStorage.getItem SyncLocalStorage.removeItem
  simp only
  rw [Backend.getItem_removeItem_self]

/-- C10: when the backend's `key(i)` is null (an index at or past the
backend's length), the store's `key(i)` is null rather than failing. -/
theorem key_none_of_backend_none {α : Type} (st : SyncLocalStorage α)
    (i : Nat) (h : st.ls.key i = none) : st.key i = none := by
  unfold SyncLocalStorage.key
  rw [h]

/-- Witness for C10 at index 0 of an empty backend. -/
theorem key_none_of_backend_none_witness :
    ((mkStore [] "n").ls.key 0 = none) ∧ ((mkStore [] "n").key 0 = none) :=
  ⟨rfl, key_none_of_backend_none (mkStore [] "n") 0 rfl⟩

/-! ### The namespace test versus the spec's prefix description -/

theorem nsPrefix_length (ns : String) :
    (ns.toList ++ ['.']).length = ns.length + 1 := by
  rw [List.length_append]
  rfl

theorem nsMatches_iff (ns k : String) :
    nsMatches ns k = true ↔ (ns.toList ++ ['.']) <+: k.toList := by
  unfold nsMatches substrTo
  rw [Bool.and_eq_true, decide_eq_true_eq, beq_iff_eq]
  constructor
  · rintro ⟨hlen, heq⟩
    have hdata : k.toList.take (ns.length + 1) = ns.data ++ ['.'] := by
      have h2 := congrArg String.data heq
      rw [String.data_append] at h2
      exact h2
    rw [List.prefix_iff_eq_take, nsPrefix_length]
    rw [hdata]
    rfl
  · intro h
    have hdata : ns.toList ++ ['.'] = k.toList.take (ns.length + 1) := by
      have h2 := List.prefix_iff_eq_take.mp h
      rw [nsPrefix_length] at h2
      exact h2
    have hle : ns.length + 1 ≤ k.length := by
      have h2 := h.length_le
      rw [nsPrefix_length] at h2
      exact h2
    refine ⟨hle, ?_⟩
    apply String.ext
    rw [String.data_append]
    exact hdata.symm

theorem nsMatches_eq_spec (ns k : String) :
    nsMatches ns k
      = ((ns.toList ++ ['.']).isPrefixOf k.toList
          && !(k.length == ns.length)) := by
  rw [Bool.eq_iff_iff, nsMatches_iff, Bool.and_eq_true,
    List.isPrefixOf_iff_prefix]
  constructor
  · intro h
    refine ⟨h, ?_⟩
    have hle : ns.length + 1 ≤ k.length := by
      have h2 := h.length_le
      rw [nsPrefix_length] at h2
      exact h2
    rw [Bool.not_eq_true', beq_eq_false_iff_ne]
    omega
  · rintro ⟨h, _⟩
    exact h

theorem key_spec_aux {α : Type} (st : SyncLocalStorage α) (i : Nat) :
    st.key i = specKeyAt st.ns (st.ls.key i) := by
  unfold SyncLocalStorage.key specKeyAt
  cases st.ls.key i with
  | none => rfl
  | some k => simp only [nsMatches_eq_spec]

/-- C3: `key(i)` is null when the backend key at `i` is null, does not
start with `namespace + "."`, or has no suffix past the namespace's
length; otherwise it is the substring after the first dot found anywhere
in the key (the spec-side description `specKeyAt`). -/
theorem key_strips_after_first_dot {α : Type} (st : SyncLocalStorage α)
    (i : Nat) : st.key i = specKeyAt st.ns (st.ls.key i) :=
  key_spec_aux st i

/-- C5: `keys()` is a raw positional mapping: its length is the backend's
total length and its entry at every index `i` is the index-based key
derivation there, null placeholders included. -/
theorem keys_raw_positional_mapping {α : Type} (st : SyncLocalStorage α) :
    st.keys.length = st.ls.length ∧
    ∀ i : Nat, st.keys[i]?
      = if i < st.ls.length then some (specKeyAt st.ns (st.ls.key i))
        else none := by
  constructor
  · simp [SyncLocalStorage.keys, SyncLocalStorage.getLength, Backend.size]
  · intro i
    unfold SyncLocalStorage.keys
    rw [List.getElem?_map]
    by_cases h : i < st.ls.length
    · rw [List.getElem?_range (by simpa [SyncLocalStorage.getLength,
        Backend.size] using h)]
      simp [key_spec_aux, h]
    · rw [List.getElem?_eq_none (by simpa [SyncLocalStorage.getLength,
        Backend.size] using Nat.le_of_not_lt h)]
      simp [h]

/-- C2: when the pattern fails to compile, `findKeys` fails carrying the
offending pattern text, independent of (and before reading) the backend:
the result is the same for every store. -/
theorem findKeys_invalid_aborts {α : Type} (st : SyncLocalStorage α)
    (pattern : String) (h : buildRe pattern = none) :
    st.findKeys pattern = .invalidPattern pattern := by
  unfold SyncLocalStorage.findKeys
  rw [h]

/-- Witness for C2: the empty pattern and a pattern with an empty segment
fail on a nonempty store without enumerating it. -/
theorem findKeys_invalid_aborts_witness :
    (buildRe "" = none) ∧
    ((mkStore [("n.a", "1")] "n").findKeys "" = .invalidPattern "") ∧
    (buildRe "cars..large" = none) ∧
    ((mkStore [("n.a", "1")] "n").findKeys "cars..large"
      = .invalidPattern "cars..large") :=
  ⟨rfl, findKeys_invalid_aborts (mkStore [("n.a", "1")] "n") "" rfl,
   rfl, findKeys_invalid_aborts (mkStore [("n.a", "1")] "n") "cars..large"
     rfl⟩

/-! ### findKeys on a valid pattern -/

theorem filterMap_if_filter (l : List String) (c : String → Bool)
    (f : String → String) (r : String → Bool) :
    l.filterMap (fun k =>
        if c k then (if r (f k) then some (f k) else none) else none)
      = (l.filterMap (fun k => if c k then some (f k) else none)).filter r := by
  induction l with
  | nil => rfl
  | cons a l ih =>
      by_cases hc : c a = true
      · by_cases hr : r (f a) = true
        · simp [List.filterMap_cons, hc, hr, ih, List.filter_cons]
        · simp [List.filterMap_cons, hc, hr, ih, List.filter_cons]
      · simp [List.filterMap_cons, hc, ih]

/-- C1: for every pattern that compiles, `findKeys` succeeds with exactly
the namespace-stripped logical keys, in backend order, accepted by the
segment matcher: same dot-segment count as the pattern, each segment
literal-equal or matched by a `*` pattern segment. -/
theorem findKeys_returns_matching_keys {α : Type} (st : SyncLocalStorage α)
    (pattern : String) (re : String → Bool)
    (h : buildRe pattern = some re) :
    st.findKeys pattern
      = .ok ((strippedNsKeys st).filter (reTest (segsOf pattern))) := by
  have hre : re = reTest (segsOf pattern) := by
    unfold buildRe at h
    by_cases hc : (segsOf pattern).all patternSegValid = true
    · rw [if_pos hc] at h
      exact (Option.some.injEq _ _ ▸ h :
        reTest (segsOf pattern) = re).symm
    · rw [if_neg hc] at h
      cases h
  subst hre
  unfold SyncLocalStorage.findKeys
  rw [h]
  show FindKeysResult.ok _ = _
  unfold strippedNsKeys
  exact congrArg _ (filterMap_if_filter _ _ _ _)

/-- Witness for C1: the spec's two worked examples, with the filtered
result evaluated to explicit key lists. -/
theorem findKeys_returns_matching_keys_witness :
    (buildRe "cars.*.large" = some (reTest (segsOf "cars.*.large"))) ∧
    ((mkStore [("shop.cars.bmw.large", "1"), ("shop.cars.ford.large", "2"),
        ("shop.cars.opel.medium", "3")] "shop").findKeys "cars.*.large"
      = .ok ((strippedNsKeys (mkStore [("shop.cars.bmw.large", "1"),
          ("shop.cars.ford.large", "2"), ("shop.cars.opel.medium", "3")]
          "shop")).filter (reTest (segsOf "cars.*.large")))) ∧
    ((mkStore [("shop.cars.bmw.large", "1"), ("shop.cars.ford.large", "2"),
        ("shop.cars.opel.medium", "3")] "shop").findKeys "cars.*.large"
      = .ok ["cars.bmw.large", "cars.ford.large"]) ∧
    ((mkStore [("n.a", "1"), ("n.b.c", "2")] "n").findKeys "*"
      = .ok ["a"]) :=
  ⟨rfl,
   findKeys_returns_matching_keys _ "cars.*.large" _ rfl,
   by decide, by decide⟩

/-! ### clear: snapshot, fold and reconstruction lemmas -/

theorem key_eq_bind {α : Type} (st : SyncLocalStorage α) (i : Nat) :
    st.key i = (st.ls.key i).bind
      (fun k => if nsMatches st.ns k then some (afterFirstDot k) else none) := by
  unfold SyncLocalStorage.key
  cases st.ls.key i <;> rfl

theorem range_filterMap_take (l : Backend) (g : String → Option String)
    (n : Nat) :
    (List.range n).filterMap (fun i => (Backend.key l i).bind g)
      = ((l.take n).map Prod.fst).filterMap g := by
  induction n with
  | zero => rfl
  | succ n ih =>
      rw [List.range_succ, List.filterMap_append, ih, List.take_succ,
        List.map_append, List.filterMap_append]
      congr 1
      cases hp : l[n]? with
      | none => simp [List.filterMap_cons, Backend.key, hp]
      | some p =>
          cases hg : g p.1 <;>
            simp [List.filterMap_cons, Backend.key, hp, hg]

theorem clear_snapshot {α : Type} (st : SyncLocalStorage α) :
    (List.range st.getLength).filterMap (fun i => st.key i)
      = strippedNsKeys st := by
  have h1 : (fun i => st.key i) = fun i => (Backend.key st.ls i).bind
      (fun k => if nsMatches st.ns k then some (afterFirstDot k) else none) :=
    funext (key_eq_bind st)
  rw [h1, range_filterMap_take]
  unfold strippedNsKeys
  rw [show st.getLength = st.ls.length from rfl, List.take_length]

theorem foldl_removeItem {α : Type} (S : List String) :
    ∀ st : SyncLocalStorage α,
    S.foldl (fun s k => s.removeItem k) st
      = { st with ls := (S.foldl
            (fun B k => B.removeItem (st.ns ++ "." ++ k)) st.ls) } := by
  induction S with
  | nil => intro st; rfl
  | cons k S ih =>
      intro st
      show S.foldl _ (st.removeItem k) = _
      rw [ih (st.removeItem k)]
      rfl

theorem foldl_removeItem_backend (ns : String) (S : List String) :
    ∀ B : Backend,
    S.foldl (fun B k => B.removeItem (ns ++ "." ++ k)) B
      = B.filter (fun p => !(S.any (fun k => p.1 == ns ++ "." ++ k))) := by
  induction S with
  | nil => intro B; simp
  | cons k S ih =>
      intro B
      show S.foldl _ (B.removeItem (ns ++ "." ++ k)) = _
      rw [ih]
      unfold Backend.removeItem
      rw [List.filter_filter]
      apply List.filter_congr
      intro x _
      simp [List.any_cons, Bool.not_or, Bool.and_comm, bne]

theorem nsMatches_rebuild (ns k : String) (hdot : '.' ∉ ns.toList)
    (hm : nsMatches ns k = true) :
    ns ++ "." ++ afterFirstDot k = k := by
  obtain ⟨rest, hrest⟩ := (nsMatches_iff ns k).mp hm
  have hklist : k.toList = ns.toList ++ ('.' :: rest) := by
    rw [← hrest]
    simp
  have hdw : k.toList.dropWhile (fun c => c != '.') = '.' :: rest := by
    rw [hklist, List.dropWhile_append]
    have h1 : ns.toList.dropWhile (fun c => c != '.') = [] := by
      rw [List.dropWhile_eq_nil_iff]
      intro x hx
      simp only [bne_iff_ne, ne_eq]
      intro hc
      exact hdot (hc ▸ hx)
    rw [h1]
    simp [List.dropWhile_cons]
  unfold afterFirstDot
  rw [hdw]
  show ns ++ "." ++ String.mk rest = k
  exact String.ext hrest

theorem nsMatches_append (ns k : String) :
    nsMatches ns (ns ++ "." ++ k) = true := by
  rw [nsMatches_iff]
  refine ⟨k.toList, ?_⟩
  have h1 : (ns ++ "." ++ k).data = ns.data ++ ['.'] ++ k.data := by
    rw [String.data_append, String.data_append]
  exact h1.symm

theorem clear_ls_filter {α : Type} (st : SyncLocalStorage α)
    (hdot : '.' ∉ st.ns.toList) :
    st.clear = { st with ls := (st.ls.filter
        (fun p => !(nsMatches st.ns p.1))) } := by
  unfold SyncLocalStorage.clear
  rw [clear_snapshot st, foldl_removeItem, foldl_removeItem_backend]
  congr 1
  apply List.filter_congr
  intro p hp
  congr 1
  by_cases hm : nsMatches st.ns p.1 = true
  · rw [hm, List.any_eq_true]
    refine ⟨afterFirstDot p.1, ?_, ?_⟩
    · unfold strippedNsKeys
      rw [List.mem_filterMap]
      exact ⟨p.1, List.mem_map.mpr ⟨p, hp, rfl⟩, by rw [if_pos hm]⟩
    · rw [nsMatches_rebuild st.ns p.1 hdot hm]
      simp
  · have hm' : nsMatches st.ns p.1 = false := by
      revert hm
      cases nsMatches st.ns p.1 <;> simp
    rw [hm', List.any_eq_false]
    intro k hk hc
    have hc' : p.1 = st.ns ++ "." ++ k := beq_iff_eq.mp hc
    rw [hc', nsMatches_append] at hm'
    cases hm'

/-- C4 (amended): for every namespace containing no dot character, after
`clear()` the backend retains exactly the entries outside the namespace,
unchanged and in order, and `keys()` contains no non-null entries. -/
theorem clear_empties_namespace {α : Type} (st : SyncLocalStorage α)
    (hdot : '.' ∉ st.ns.toList) :
    st.clear.ls = st.ls.filter (fun p => !(nsMatches st.ns p.1)) ∧
    ∀ o ∈ st.clear.keys, o = none := by
  have hcl := clear_ls_filter st hdot
  constructor
  · rw [hcl]
  · intro o ho
    rw [hcl] at ho
    unfold SyncLocalStorage.keys at ho
    rw [List.mem_map] at ho
    obtain ⟨i, _, rfl⟩ := ho
    unfold SyncLocalStorage.key
    cases hk : Backend.key
        ({ st with ls := (st.ls.filter
          (fun p => !(nsMatches st.ns p.1))) } :
          SyncLocalStorage α).ls i with
    | none => simp [hk]
    | some k =>
        unfold Backend.key at hk
        obtain ⟨p, hp, hpk⟩ := Option.map_eq_some'.mp hk
        have hmem := List.getElem?_mem hp
        have hfilt := (List.mem_filter.mp hmem).2
        have hns : nsMatches st.ns k = false := by
          rw [← hpk]
          revert hfilt
          cases nsMatches st.ns p.1 <;> simp
        simp [hk, hns]

/-- Witness for C4's amended theorem on a dot-free namespace with a
foreign entry interleaved. -/
theorem clear_empties_namespace_witness :
    ('.' ∉ (mkStore [("n.x", "1"), ("m.y", "2"), ("n.z", "3")] "n").ns.toList)
    ∧ ((mkStore [("n.x", "1"), ("m.y", "2"), ("n.z", "3")] "n").clear.ls
        = (mkStore [("n.x", "1"), ("m.y", "2"), ("n.z", "3")] "n").ls.filter
            (fun p => !(nsMatches
              (mkStore [("n.x", "1"), ("m.y", "2"), ("n.z", "3")] "n").ns
              p.1)) ∧
       ∀ o ∈ (mkStore [("n.x", "1"), ("m.y", "2"), ("n.z", "3")] "n").clear.keys,
         o = none) :=
  ⟨by decide,
   clear_empties_namespace (mkStore [("n.x", "1"), ("m.y", "2"), ("n.z", "3")]
     "n") (by decide)⟩

/-- C4 counterexample: the claim as stated fails for a namespace
containing a dot: with namespace `a.b` and the single physical key
`a.b.x`, the logical key strips to `b.x` (first-dot logic), `clear()`
removes `a.b.b.x` (absent) instead of `a.b.x`, and `keys()` afterwards
still holds the non-null namespaced entry `b.x`. -/
theorem clear_dotted_namespace_counterexample :
    ((mkStore [("a.b.x", "v")] "a.b").clear.keys = [some "b.x"]) ∧
    (((mkStore [("a.b.x", "v")] "a.b").clear.keys).all
      (fun o => o == none) = false) ∧
    ((mkStore [("a.b.x", "v")] "a.b").clear.ls = [("a.b.x", "v")]) :=
  ⟨by decide, by decide, by decide⟩
